import Mathlib

/-!
# Verification of the `temporal-planner` core against its specification

This file gives a shallow embedding, in Lean 4, of the parts of the
`temporal-planner` Rust crate that the specification claims speak about:

* the compiled-task data model (`temporal_task.rs`),
* the PDDL text processing pipeline (`temporal_task.rs`),
* the state space (`state_space.rs`),
* the A* search engine (`search.rs`).

Modelling conventions:

* Rust `f64` values (durations, times, g/h-values, numeric fluents) are
  modelled as `ℚ`.  Every concrete number appearing in the settled claims is
  a small dyadic or decimal rational on which `f64` arithmetic is exact.
  `f64::EPSILON` is `2^-52`.
* Rust `HashMap<String, f64>` (the numeric-fluent store) is modelled as an
  association list `List (String × ℚ)`; the unordered iteration of the map
  is modelled as the list order.
* `Vec<T>` is `List T`; pushing at the back is `++ [x]`.
* Rust string scanning (the regex-based extraction helpers) is modelled
  character by character over `List Char`; the three regular expressions of
  the source are simple enough to be translated into direct scanners with
  identical match semantics (leftmost match, greedy character classes,
  iteration resuming at the end of the previous match).
* Recursive scanners whose termination is by string exhaustion receive an
  explicit fuel argument, always instantiated large enough (one unit per
  consumed character) so that the fuel never runs out on any input.
-/

namespace TemporalPlanner

/-! ## Character and string utilities (models of the Rust `str` methods used) -/

/-- Whitespace as used by the source's `split_whitespace` / `trim` calls.
The inputs of interest are ASCII, so the ASCII whitespace characters suffice. -/
def isWsChar (c : Char) : Bool :=
  c == ' ' || c == '\t' || c == '\n' || c == '\r'

/-- The character class `[a-zA-Z0-9_-]` of the source's extraction regexes. -/
def isNameChar (c : Char) : Bool :=
  c.isAlpha || c.isDigit || c == '_' || c == '-'

/-- Model of `str::trim_start`. -/
def trimL (cs : List Char) : List Char := cs.dropWhile isWsChar

/-- Model of `str::trim_end`. -/
def trimR (cs : List Char) : List Char := (cs.reverse.dropWhile isWsChar).reverse

/-- Model of `str::trim`. -/
def trimWs (cs : List Char) : List Char := trimR (trimL cs)

/-- Model of `str::starts_with` on character lists. -/
def strStarts (pat cs : List Char) : Bool := List.isPrefixOf pat cs

/-- First index at which `pat` occurs as a contiguous substring, the model of
`str::find(pat)`. -/
def findSub (pat : List Char) : List Char → Option Nat
  | [] => if pat = [] then some 0 else none
  | c :: rest =>
    if strStarts pat (c :: rest) then some 0
    else (findSub pat rest).map (· + 1)

/-- Helper of `splitWs`: accumulates the current (reversed) token. -/
def splitWsAux : List Char → List Char → List (List Char)
  | [], cur => if cur.isEmpty then [] else [cur.reverse]
  | c :: rest, cur =>
    if isWsChar c then
      if cur.isEmpty then splitWsAux rest []
      else cur.reverse :: splitWsAux rest []
    else splitWsAux rest (c :: cur)

/-- Model of `str::split_whitespace`. -/
def splitWs (cs : List Char) : List (List Char) := splitWsAux cs []

/-- Intercalate a single space, the model of `Vec::join(" ")`. -/
def joinSpace : List (List Char) → List Char
  | [] => []
  | [t] => t
  | t :: rest => t ++ ' ' :: joinSpace rest

/-- Helper of `linesRust`: split at each newline. -/
def linesAux : List Char → List Char → List (List Char)
  | [], cur => if cur.isEmpty then [] else [cur.reverse]
  | c :: rest, cur =>
    if c == '\n' then cur.reverse :: linesAux rest []
    else linesAux rest (c :: cur)

/-- Strip one trailing carriage return, as `str::lines` does per line. -/
def stripCR (cs : List Char) : List Char :=
  match cs.reverse with
  | '\r' :: r => r.reverse
  | _ => cs

/-- Model of `str::lines`: split on `'\n'`, strip a trailing `'\r'` from each
line, and drop a final empty segment. -/
def linesRust (cs : List Char) : List (List Char) :=
  (linesAux cs []).map stripCR

/-! ## Model of `str::parse::<f64>` on finite decimal literals

The source calls `parse::<f64>` on numeral tokens.  The model covers the
finite-literal grammar (optional sign, integer digits, optional fraction,
optional exponent) with exact rational semantics; the special spellings
`inf`/`NaN`, which are not numeric literals, are not modelled and parse to
`none`. -/

/-- Natural value of a digit string. -/
def digitsVal (ds : List Char) : Nat :=
  ds.foldl (fun acc d => acc * 10 + (d.toNat - '0'.toNat)) 0

/-- Model of `str::parse::<f64>` restricted to finite decimal literals,
with exact rational arithmetic. -/
def parseF64 (cs : List Char) : Option ℚ :=
  let (sign, rest) :=
    match cs with
    | '+' :: r => ((1 : ℚ), r)
    | '-' :: r => ((-1 : ℚ), r)
    | r => ((1 : ℚ), r)
  let intDigits := rest.takeWhile Char.isDigit
  let rest₁ := rest.drop intDigits.length
  let (hasDot, fracDigits, rest₂) :=
    match rest₁ with
    | '.' :: r => (true, r.takeWhile Char.isDigit, r.drop (r.takeWhile Char.isDigit).length)
    | r => (false, ([] : List Char), r)
  if intDigits.isEmpty && (!hasDot || fracDigits.isEmpty) then none
  else
    let mant : ℚ := (digitsVal intDigits : ℚ) + (digitsVal fracDigits : ℚ) / (10 : ℚ) ^ fracDigits.length
    match rest₂ with
    | [] => some (sign * mant)
    | e :: r =>
      if e == 'e' || e == 'E' then
        let (esign, r₁) :=
          match r with
          | '+' :: r' => ((1 : Int), r')
          | '-' :: r' => ((-1 : Int), r')
          | r' => ((1 : Int), r')
        let expDigits := r₁.takeWhile Char.isDigit
        if expDigits.isEmpty || !(r₁.drop expDigits.length).isEmpty then none
        else some (sign * mant * (10 : ℚ) ^ (esign * (digitsVal expDigits : Int)))
      else none

/-- Model of `f64::round`: round half away from zero. -/
def rustRound (q : ℚ) : Int :=
  if 0 ≤ q then ⌊q + 1/2⌋ else -⌊-q + 1/2⌋

/-- `f64::EPSILON`. -/
def epsF64 : ℚ := 1 / 2 ^ 52

/-! ## Compiled-task data model (`temporal_task.rs`) -/

/-- `Condition { predicate, args, is_negative }`. -/
structure Condition where
  predicate : String
  args : List String
  is_negative : Bool
deriving DecidableEq

/-- `Effect { predicate, args, is_delete }`. -/
structure Effect where
  predicate : String
  args : List String
  is_delete : Bool
deriving DecidableEq

/-- `TemporalAction`: name, duration, three condition groups, two effect
groups. -/
structure TemporalAction where
  name : String
  duration : ℚ
  conditions_start : List Condition
  conditions_over_all : List Condition
  conditions_end : List Condition
  effects_start : List Effect
  effects_end : List Effect
deriving DecidableEq

/-- `State { facts: Vec<bool>, numeric_values: HashMap<String, f64> }`,
the numeric map modelled as an association list. -/
structure State where
  facts : List Bool
  numeric_values : List (String × ℚ)
deriving DecidableEq

/-- `HashMap::get` on the association-list model. -/
def nvGet (nv : List (String × ℚ)) (k : String) : Option ℚ :=
  (nv.find? (fun p => p.1 == k)).map (·.2)

/-- The `PartialEq for State` implementation: identical fact vectors, equal
map sizes, and every numeric value of `self` matched in `other` to within
`f64::EPSILON`. -/
def stateEq (a b : State) : Bool :=
  a.facts == b.facts &&
  a.numeric_values.length == b.numeric_values.length &&
  a.numeric_values.all (fun kv =>
    match nvGet b.numeric_values kv.1 with
    | some ov => decide (|kv.2 - ov| < epsF64)
    | none => false)

/-- The data the `Hash for State` implementation feeds to the hasher: the
fact vector, then for each numeric entry its key and
`(v * 1000000.0).round() as i64`.  Two states hash identically (for every
hasher) exactly when this data coincides. -/
def stateHashData (s : State) : List Bool × List (String × Int) :=
  (s.facts, s.numeric_values.map (fun kv => (kv.1, rustRound (kv.2 * 1000000))))

/-- `MutexGroup { facts: Vec<usize> }`. -/
structure MutexGroup where
  facts : List Nat
deriving DecidableEq

/-- `TemporalTask`. -/
structure TemporalTask where
  initial_state : State
  goal_conditions : List Condition
  actions : List TemporalAction
  mutex_groups : List MutexGroup
deriving DecidableEq

/-! ## Temporal state (`state_space.rs` data) -/

/-- `ScheduledEffect { time, effect, action_id }`. -/
structure ScheduledEffect where
  time : ℚ
  effect : Effect
  action_id : Nat
deriving DecidableEq

/-- `TemporalState { classical_state, scheduled_effects, time }`. -/
structure TemporalState where
  classical_state : State
  scheduled_effects : List ScheduledEffect
  time : ℚ
deriving DecidableEq

/-! ## PDDL parsing structures (`temporal_task.rs`) -/

/-- `PDDLParameter { name, type_name }`. -/
structure PDDLParameter where
  name : String
  type_name : Option String
deriving DecidableEq

/-- `PDDLPredicate { name, parameters }`. -/
structure PDDLPredicate where
  name : String
  parameters : List PDDLParameter
deriving DecidableEq

/-- The `PDDLFormula` tree. -/
inductive PDDLFormula where
  | Predicate (name : String) (args : List String) (negated : Bool)
  | And (fs : List PDDLFormula)
  | Or (fs : List PDDLFormula)
  | Not (f : PDDLFormula)
  | AtStart (f : PDDLFormula)
  | AtEnd (f : PDDLFormula)
  | OverAll (f : PDDLFormula)

/-- `PDDLDuration`. -/
inductive PDDLDuration where
  | Fixed (d : ℚ)
  | Variable (v : String)
  | Expression (f : PDDLFormula)

/-- `PDDLAction`. -/
structure PDDLAction where
  name : String
  parameters : List PDDLParameter
  precondition : Option PDDLFormula
  effect : Option PDDLFormula
  duration : Option PDDLDuration
  is_durative : Bool

/-! ## Condition / effect collection (`collect_*_recursive`)

The Rust functions push into a `&mut Vec`; the model returns the list of
pushed elements in push order, so sequential pushes become `++`. -/

mutual

/-- `collect_conditions_recursive`.  Note the `Or` branch: the source
deliberately collects the disjuncts exactly as the `And` branch does. -/
def collectConditions : PDDLFormula → List Condition
  | .Predicate n a neg => [⟨n, a, neg⟩]
  | .And fs => collectConditionsList fs
  | .Or fs => collectConditionsList fs
  | .Not f =>
    match f with
    | .Predicate n a _ => [⟨n, a, true⟩]
    | _ => []
  | .AtStart f => collectConditions f
  | .AtEnd f => collectConditions f
  | .OverAll f => collectConditions f

/-- Sequential collection over a formula list. -/
def collectConditionsList : List PDDLFormula → List Condition
  | [] => []
  | f :: fs => collectConditions f ++ collectConditionsList fs

end

mutual

/-- `collect_effects_recursive`.  `Or` and `OverAll` fall into the wildcard
branch and collect nothing. -/
def collectEffects : PDDLFormula → List Effect
  | .Predicate n a neg => [⟨n, a, neg⟩]
  | .And fs => collectEffectsList fs
  | .Not f =>
    match f with
    | .Predicate n a _ => [⟨n, a, true⟩]
    | _ => []
  | .AtStart f => collectEffects f
  | .AtEnd f => collectEffects f
  | _ => []

/-- Sequential collection over a formula list. -/
def collectEffectsList : List PDDLFormula → List Effect
  | [] => []
  | f :: fs => collectEffects f ++ collectEffectsList fs

end

mutual

/-- `collect_temporal_conditions_recursive`: partition conditions into the
`(at-start, over-all, at-end)` groups; untagged formulas default to
`at-start`. -/
def collectTemporalConditions : PDDLFormula → List Condition × List Condition × List Condition
  | .AtStart f => (collectConditions f, [], [])
  | .OverAll f => ([], collectConditions f, [])
  | .AtEnd f => ([], [], collectConditions f)
  | .And fs => collectTemporalConditionsList fs
  | f => (collectConditions f, [], [])

/-- Componentwise concatenation over a formula list. -/
def collectTemporalConditionsList : List PDDLFormula → List Condition × List Condition × List Condition
  | [] => ([], [], [])
  | f :: fs =>
    let (s, o, e) := collectTemporalConditions f
    let (s', o', e') := collectTemporalConditionsList fs
    (s ++ s', o ++ o', e ++ e')

end

mutual

/-- `collect_temporal_effects_recursive`: partition effects into the
`(at-start, at-end)` groups; untagged formulas default to `at-end`. -/
def collectTemporalEffects : PDDLFormula → List Effect × List Effect
  | .AtStart f => (collectEffects f, [])
  | .AtEnd f => ([], collectEffects f)
  | .And fs => collectTemporalEffectsList fs
  | f => ([], collectEffects f)

/-- Componentwise concatenation over a formula list. -/
def collectTemporalEffectsList : List PDDLFormula → List Effect × List Effect
  | [] => ([], [])
  | f :: fs =>
    let (s, e) := collectTemporalEffects f
    let (s', e') := collectTemporalEffectsList fs
    (s ++ s', e ++ e')

end

/-- `extract_conditions_from_formula`. -/
def extractConditionsFromFormula : Option PDDLFormula → List Condition
  | some f => collectConditions f
  | none => []

/-- `extract_effects_from_formula`. -/
def extractEffectsFromFormula : Option PDDLFormula → List Effect
  | some f => collectEffects f
  | none => []

/-- `extract_temporal_conditions`. -/
def extractTemporalConditions : Option PDDLFormula → List Condition × List Condition × List Condition
  | some f => collectTemporalConditions f
  | none => ([], [], [])

/-- `extract_temporal_effects`. -/
def extractTemporalEffects : Option PDDLFormula → List Effect × List Effect
  | some f => collectTemporalEffects f
  | none => ([], [])

/-! ## Text processing (`temporal_task.rs` parsing helpers) -/

/-- `clean_pddl_content`: strip `;`-comments per line, join the lines with
spaces, then normalise all whitespace runs to single spaces. -/
def cleanPddl (cs : List Char) : List Char :=
  joinSpace (splitWs (joinSpace ((linesRust cs).map (fun l => l.takeWhile (fun c => c ≠ ';')))))

/-- Helper of `extract_balanced_expression`: the source's character loop with
its `depth`/`started` state (`depth` is an `i32`). -/
def extractBalancedAux : List Char → Int → Bool → List Char → List Char
  | [], _, _, acc => acc.reverse
  | c :: rest, depth, started, acc =>
    let depth' := if c == '(' then depth + 1 else if c == ')' then depth - 1 else depth
    let started' := started || c == '('
    if started' then
      if depth' == 0 then (c :: acc).reverse
      else extractBalancedAux rest depth' started' (c :: acc)
    else extractBalancedAux rest depth' started' acc

/-- `extract_balanced_expression`: the substring from the first `'('` to its
matching `')'` (or to the end of input when unbalanced). -/
def extractBalanced (cs : List Char) : List Char := extractBalancedAux cs 0 false []

/-- Helper of `balancedSection`: push every character, break once the
parenthesis depth returns to zero. -/
def balancedSectionAux : List Char → Int → List Char → List Char
  | [], _, acc => acc.reverse
  | c :: rest, depth, acc =>
    let depth' := if c == '(' then depth + 1 else if c == ')' then depth - 1 else depth
    if c == ')' && depth' == 0 then (c :: acc).reverse
    else balancedSectionAux rest depth' (c :: acc)

/-- The section-grabbing loop of `extract_predicates`: like
`extract_balanced_expression` but pushing from the very first character.
It is only ever applied at an index where the content starts with `'('`. -/
def balancedSection (cs : List Char) : List Char := balancedSectionAux cs 0 []

/-- Iteration of the regex `\(([a-zA-Z0-9_-]+)([^)]*)\)` over the input
(`captures_iter`): at each `'('` take a maximal nonempty run of name
characters, then a maximal run of non-`')'` characters, and require a
closing `')'`; on success resume after the match, otherwise advance one
character.  One unit of fuel is spent per examined position. -/
def predCapturesAux : Nat → List Char → List (List Char × List Char)
  | 0, _ => []
  | _, [] => []
  | fuel + 1, c :: rest =>
    if c == '(' then
      let name := rest.takeWhile isNameChar
      if name.isEmpty then predCapturesAux fuel rest
      else
        let rest₁ := rest.drop name.length
        let args := rest₁.takeWhile (fun ch => ch ≠ ')')
        match rest₁.drop args.length with
        | ')' :: rest₂ => (name, args) :: predCapturesAux fuel rest₂
        | _ => predCapturesAux fuel rest
    else predCapturesAux fuel rest

/-- All captures of the fact/predicate regex over `cs`. -/
def predCaptures (cs : List Char) : List (List Char × List Char) :=
  predCapturesAux (cs.length + 1) cs

/-- One attempted match of `\(:(action|durative-action)\s+([a-zA-Z0-9_-]+)`
at the current position: returns `(is_durative, name, match length)`. -/
def matchActionHead (cs : List Char) : Option (Bool × List Char × Nat) :=
  let tryKind (kw : List Char) (isDur : Bool) : Option (Bool × List Char × Nat) :=
    if strStarts kw cs then
      let afterKw := cs.drop kw.length
      let ws := afterKw.takeWhile isWsChar
      if ws.isEmpty then none
      else
        let name := (afterKw.drop ws.length).takeWhile isNameChar
        if name.isEmpty then none
        else some (isDur, name, kw.length + ws.length + name.length)
    else none
  match tryKind "(:action".toList false with
  | some r => some r
  | none => tryKind "(:durative-action".toList true

/-- Iteration of the action-header regex (`captures_iter` in
`extract_actions`), also recording the match start index
(`cap.get(0).start()`). -/
def actionCapturesAux : Nat → List Char → Nat → List (Bool × List Char × Nat)
  | 0, _, _ => []
  | _, [], _ => []
  | fuel + 1, c :: rest, idx =>
    match matchActionHead (c :: rest) with
    | some (isDur, name, len) => (isDur, name, idx) :: actionCapturesAux fuel ((c :: rest).drop len) (idx + len)
    | none => actionCapturesAux fuel rest (idx + 1)

/-- All action-header captures with their start indices. -/
def actionCaptures (cs : List Char) : List (Bool × List Char × Nat) :=
  actionCapturesAux (cs.length + 1) cs 0

/-- `parse_parameters`: walk the whitespace tokens; a `?`-token opens a
parameter, and a following `- type` pair (when the type token exists) types
it. -/
def parseParameters : List (List Char) → List PDDLParameter
  | [] => []
  | t :: rest =>
    if t.head? == some '?' then
      match rest with
      | d :: ty :: rest' =>
        if d = ['-'] then ⟨⟨t⟩, some ⟨ty⟩⟩ :: parseParameters rest'
        else ⟨⟨t⟩, none⟩ :: parseParameters (d :: ty :: rest')
      | [d] => ⟨⟨t⟩, none⟩ :: parseParameters [d]
      | [] => [⟨⟨t⟩, none⟩]
    else parseParameters rest
termination_by l => l.length
decreasing_by all_goals (simp only [List.length_cons]; omega)

/-- `parse_parameters` on the raw captured parameter string. -/
def parseParametersStr (cs : List Char) : List PDDLParameter :=
  parseParameters (splitWs cs)

/-- One attempted match of `:parameters\s+\(([^)]*)\)` at the current
position: returns the captured group. -/
def matchParamsHead (cs : List Char) : Option (List Char) :=
  if strStarts ":parameters".toList cs then
    let after := cs.drop ":parameters".toList.length
    let ws := after.takeWhile isWsChar
    if ws.isEmpty then none
    else
      match after.drop ws.length with
      | '(' :: r =>
        let inner := r.takeWhile (fun ch => ch ≠ ')')
        match r.drop inner.length with
        | ')' :: _ => some inner
        | _ => none
      | _ => none
  else none

/-- First match of the `:parameters` regex over the action content. -/
def paramsCaptureAux : Nat → List Char → Option (List Char)
  | 0, _ => none
  | _, [] => none
  | fuel + 1, c :: rest =>
    match matchParamsHead (c :: rest) with
    | some inner => some inner
    | none => paramsCaptureAux fuel rest

/-- `extract_action_parameters`. -/
def extractActionParameters (actionContent : List Char) : List PDDLParameter :=
  match paramsCaptureAux (actionContent.length + 1) actionContent with
  | some inner => parseParametersStr inner
  | none => []

/-! ## Formula tokenising and parsing -/

/-- The character loop of `tokenize_formula`, with its
`(tokens, current_token, depth, in_token)` state (`depth` is an `i32`). -/
def tokenizeFormulaAux : List Char → List Char → Int → Bool → List (List Char)
  | [], cur, depth, _ =>
    if cur.isEmpty then []
    else if depth > 0 then [('(' :: cur.reverse) ++ [')']]
    else [cur.reverse]
  | c :: rest, cur, depth, inTok =>
    if c == '(' then
      let cur' := if depth > 0 || inTok then c :: cur else cur
      tokenizeFormulaAux rest cur' (depth + 1) inTok
    else if c == ')' then
      let depth' := depth - 1
      let cur' := if depth' > 0 || inTok then c :: cur else cur
      if depth' == 0 && inTok then
        ('(' :: cur'.reverse ++ [')']) :: tokenizeFormulaAux rest [] depth' false
      else tokenizeFormulaAux rest cur' depth' inTok
    else if isWsChar c then
      if depth > 0 then tokenizeFormulaAux rest (c :: cur) depth inTok
      else if cur.isEmpty then tokenizeFormulaAux rest cur depth false
      else cur.reverse :: tokenizeFormulaAux rest [] depth false
    else
      tokenizeFormulaAux rest (c :: cur) depth (if depth == 0 then true else inTok)

/-- `tokenize_formula`. -/
def tokenizeFormula (cs : List Char) : List (List Char) :=
  tokenizeFormulaAux cs [] 0 false

/-- Opening-parenthesis count of a token. -/
def countOpen (t : List Char) : Int := ((t.filter (fun c => c == '(')).length : Nat)

/-- Closing-parenthesis count of a token. -/
def countClose (t : List Char) : Int := ((t.filter (fun c => c == ')')).length : Nat)

/-- The token loop of `extract_sub_formulas`, with its
`(current_formula, depth)` state. -/
def extractSubFormulasAux : List (List Char) → List Char → Int → List (List Char)
  | [], cur, _ => if cur.isEmpty then [] else [cur]
  | t :: rest, cur, depth =>
    if t.head? == some '(' then
      let cur' := if depth > 0 then cur ++ ' ' :: t else t
      let depth' := depth + countOpen t - countClose t
      if depth' == 0 then cur' :: extractSubFormulasAux rest [] 0
      else extractSubFormulasAux rest cur' depth'
    else if depth > 0 then extractSubFormulasAux rest (cur ++ ' ' :: t) depth
    else ('(' :: t ++ [')']) :: extractSubFormulasAux rest cur depth

/-- `extract_sub_formulas`. -/
def extractSubFormulas (tokens : List (List Char)) : List (List Char) :=
  extractSubFormulasAux tokens [] 0

/-- `parse_formula`, with fuel for the recursion on constructed substrings
(the Rust recursion terminates because each recursive call parses a strictly
shorter formula text). -/
def parseFormula : Nat → List Char → Option PDDLFormula
  | 0, _ => none
  | fuel + 1, s =>
    let trimmed := trimWs s
    if !(trimmed.head? == some '(' && trimmed.getLast? == some ')') then none
    else
      let inner := (trimmed.drop 1).dropLast
      let tokens := tokenizeFormula inner
      match tokens with
      | [] => none
      | head :: rest =>
        if head = "and".toList then
          some (.And (((extractSubFormulas rest).map (parseFormula fuel)).reduceOption))
        else if head = "or".toList then
          some (.Or (((extractSubFormulas rest).map (parseFormula fuel)).reduceOption))
        else if head = "not".toList then
          if rest.isEmpty then none
          else
            match parseFormula fuel ('(' :: joinSpace rest ++ [')']) with
            | some f => some (.Not f)
            | none => none
        else if head = "at".toList then
          match rest with
          | t :: rest' =>
            if t = "start".toList then
              match parseFormula fuel ('(' :: joinSpace rest' ++ [')']) with
              | some f => some (.AtStart f)
              | none => none
            else if t = "end".toList then
              match parseFormula fuel ('(' :: joinSpace rest' ++ [')']) with
              | some f => some (.AtEnd f)
              | none => none
            else none
          | [] => none
        else if head = "over".toList then
          match rest with
          | t :: rest' =>
            if t = "all".toList then
              match parseFormula fuel ('(' :: joinSpace rest' ++ [')']) with
              | some f => some (.OverAll f)
              | none => none
            else none
          | [] => none
        else
          some (.Predicate ⟨head⟩ (rest.map (fun t => (⟨t⟩ : String))) false)

/-- Fuel supplied to `parseFormula`: ample for every input (the Rust
recursion depth is bounded by the text length). -/
def formulaFuel (cs : List Char) : Nat := 4 * cs.length + 16

/-! ## Action component extraction -/

/-- `extract_action_precondition`. -/
def extractActionPrecondition (actionContent : List Char) : Option PDDLFormula :=
  match findSub ":precondition".toList actionContent with
  | some i =>
    let after := trimL (actionContent.drop (i + ":precondition".toList.length))
    let formulaStr := extractBalanced after
    parseFormula (formulaFuel formulaStr) formulaStr
  | none => none

/-- `extract_action_condition`. -/
def extractActionCondition (actionContent : List Char) : Option PDDLFormula :=
  match findSub ":condition".toList actionContent with
  | some i =>
    let after := trimL (actionContent.drop (i + ":condition".toList.length))
    let formulaStr := extractBalanced after
    parseFormula (formulaFuel formulaStr) formulaStr
  | none => none

/-- `extract_action_effect`. -/
def extractActionEffect (actionContent : List Char) : Option PDDLFormula :=
  match findSub ":effect".toList actionContent with
  | some i =>
    let after := trimL (actionContent.drop (i + ":effect".toList.length))
    let formulaStr := extractBalanced after
    parseFormula (formulaFuel formulaStr) formulaStr
  | none => none

/-- The cleaning step of `extract_action_duration`: trim, then strip all
leading `'('` and all trailing `')'` characters
(`trim_start_matches` / `trim_end_matches`). -/
def cleanedClause (clause : List Char) : List Char :=
  ((((trimWs clause).dropWhile (fun c => c == '(')).reverse.dropWhile (fun c => c == ')'))).reverse

/-- The prefix test, token split and numeral parse of
`extract_action_duration` on the cleaned clause. -/
def parseDurationClause (clause : List Char) : PDDLDuration :=
  let cleaned := cleanedClause clause
  if strStarts "= ?duration".toList cleaned then
    let tokens := splitWs cleaned
    if 3 ≤ tokens.length then
      match parseF64 (tokens.getD 2 []) with
      | some v => .Fixed v
      | none => .Fixed 1
    else .Fixed 1
  else .Fixed 1

/-- `extract_action_duration`. -/
def extractActionDuration (actionContent : List Char) : PDDLDuration :=
  match findSub ":duration".toList actionContent with
  | some i =>
    parseDurationClause (extractBalanced (trimL (actionContent.drop (i + ":duration".toList.length))))
  | none => .Fixed 1

/-! ## Domain extraction -/

/-- `extract_predicates`: locate the `(:predicates` section, grab the
balanced section, and run the predicate regex over it, skipping a capture
named `predicates`. -/
def extractPredicates (content : List Char) : List PDDLPredicate :=
  match findSub "(:predicates".toList content with
  | some i =>
    let predSection := balancedSection (content.drop i)
    (predCaptures predSection).filterMap (fun cap =>
      if cap.1 = "predicates".toList then none
      else some ⟨⟨cap.1⟩, parseParametersStr cap.2⟩)
  | none => []

/-- `extract_actions`: for each action-header capture, take the balanced
expression at the match start and extract the components; durative actions
use `:condition`/`:duration`, plain actions use `:precondition`. -/
def extractActions (content : List Char) : List PDDLAction :=
  (actionCaptures content).map (fun cap =>
    let isDur := cap.1
    let name := cap.2.1
    let actionContent := extractBalanced (content.drop cap.2.2)
    let parameters := extractActionParameters actionContent
    if isDur then
      { name := ⟨name⟩, parameters := parameters,
        precondition := extractActionCondition actionContent,
        effect := extractActionEffect actionContent,
        duration := some (extractActionDuration actionContent),
        is_durative := true }
    else
      { name := ⟨name⟩, parameters := parameters,
        precondition := extractActionPrecondition actionContent,
        effect := extractActionEffect actionContent,
        duration := none,
        is_durative := false })

/-- The per-action conversion of `convert_pddl_actions`. -/
def convertPddlAction (a : PDDLAction) : TemporalAction :=
  let duration : ℚ :=
    match a.duration with
    | some (.Fixed d) => d
    | _ => 1
  if a.is_durative then
    let (cs, co, ce) := extractTemporalConditions a.precondition
    let (es, ee) := extractTemporalEffects a.effect
    { name := a.name, duration := duration,
      conditions_start := cs, conditions_over_all := co, conditions_end := ce,
      effects_start := es, effects_end := ee }
  else
    { name := a.name, duration := duration,
      conditions_start := extractConditionsFromFormula a.precondition,
      conditions_over_all := [], conditions_end := [],
      effects_start := [],
      effects_end := extractEffectsFromFormula a.effect }

/-- `convert_pddl_actions` (its `_predicates` argument is unused in the
source). -/
def convertPddlActions (pddlActions : List PDDLAction) : List TemporalAction :=
  pddlActions.map convertPddlAction

/-! ## Problem extraction -/

/-- `find_predicate_index` with an explicit running index: the first declared
predicate whose name matches and whose declared parameter count equals the
argument count. -/
def findPredicateIndexFrom (idx : Nat) : List PDDLPredicate → String → List String → Option Nat
  | [], _, _ => none
  | p :: rest, name, args =>
    if p.name == name && p.parameters.length == args.length then some idx
    else findPredicateIndexFrom (idx + 1) rest name args

/-- `find_predicate_index`. -/
def findPredicateIndex (predicates : List PDDLPredicate) (name : String) (args : List String) : Option Nat :=
  findPredicateIndexFrom 0 predicates name args

/-- `HashMap::insert` on the association-list model: replace an existing
binding or append a new one. -/
def nvInsert (nv : List (String × ℚ)) (k : String) (v : ℚ) : List (String × ℚ) :=
  if nv.any (fun p => p.1 == k) then
    nv.map (fun p => if p.1 == k then (k, v) else p)
  else nv ++ [(k, v)]

/-- The per-capture update of `parse_initial_state`: set the fact bit of the
resolved predicate index, and handle the (dead, see the name regex) numeric
`=` branch. -/
def initStateStep (predicates : List PDDLPredicate) (st : State) (cap : List Char × List Char) : State :=
  let name := cap.1
  if name = "init".toList then st
  else
    let argsStr := trimWs cap.2
    let args : List String := if argsStr.isEmpty then [] else (splitWs argsStr).map (fun t => (⟨t⟩ : String))
    let st₁ :=
      match findPredicateIndex predicates ⟨name⟩ args with
      | some idx =>
        if idx < st.facts.length then { st with facts := st.facts.set idx true } else st
      | none => st
    if name = "=".toList && 2 ≤ args.length then
      match parseF64 (args.getD 1 "").toList with
      | some v => { st₁ with numeric_values := nvInsert st₁.numeric_values (args.getD 0 "") v }
      | none => st₁
    else st₁

/-- `parse_initial_state`. -/
def parseInitialState (content : List Char) (predicates : List PDDLPredicate) : State :=
  let st : State := ⟨List.replicate predicates.length false, []⟩
  match findSub "(:init".toList content with
  | some i =>
    (predCaptures (extractBalanced (content.drop i))).foldl (initStateStep predicates) st
  | none => st

/-- `parse_goal_conditions`. -/
def parseGoalConditions (content : List Char) : List Condition :=
  match findSub "(:goal".toList content with
  | some i =>
    let goalSection := extractBalanced (trimL (content.drop (i + 6)))
    match parseFormula (formulaFuel goalSection) goalSection with
    | some f => collectConditions f
    | none => []
  | none => []

/-- `parse_pddl_problem`. -/
def parsePddlProblem (problemContent : List Char) (predicates : List PDDLPredicate) : State × List Condition :=
  let cleaned := cleanPddl problemContent
  (parseInitialState cleaned predicates, parseGoalConditions cleaned)

/-- `TemporalTask::from_pddl`.  Of the parsed `PDDLDomain` only the
`predicates` and `actions` fields flow into the result (the name,
requirements and types extractions do not affect the returned task), so the
domain parse is embedded as those two extractions over the cleaned text.
There is no failure path: a task is returned for every input. -/
def fromPddl (domainContent problemContent : String) : TemporalTask :=
  let cleanedD := cleanPddl domainContent.toList
  let predicates := extractPredicates cleanedD
  let actions := convertPddlActions (extractActions cleanedD)
  let (initialState, goalConditions) := parsePddlProblem problemContent.toList predicates
  { initial_state := initialState, goal_conditions := goalConditions,
    actions := actions, mutex_groups := [] }

/-! ## State space (`state_space.rs`) -/

/-- `StateSpace::check_condition`: the body is an unimplemented stub that
returns `true` for every condition and state. -/
def checkCondition (_condition : Condition) (_state : State) : Bool := true

/-- `StateSpace::is_applicable`: every `at-start` condition must pass
`check_condition` (the mutex check is absent from the source). -/
def isApplicable (action : TemporalAction) (state : TemporalState) : Bool :=
  action.conditions_start.all (fun c => checkCondition c state.classical_state)

/-- `StateSpace::get_applicable_actions`: enumerate the task's actions and
return `(index, state.time)` for each applicable one. -/
def getApplicableActions (task : TemporalTask) (state : TemporalState) : List (Nat × ℚ) :=
  task.actions.enum.filterMap (fun p =>
    if isApplicable p.2 state then some (p.1, state.time) else none)

/-- `StateSpace::apply_effect`: the body is an unimplemented stub that
leaves the state unchanged. -/
def applyEffect (state : State) (_effect : Effect) : State := state

/-- Placeholder action for the (unreached) out-of-range index case of the
source's `self.task.actions[action_idx]`, which would panic in Rust. -/
def defaultAction : TemporalAction := ⟨"", 1, [], [], [], [], []⟩

/-- `StateSpace::apply_action`: fold the `at-start` effects through
`apply_effect`, append the `at-end` effects to the scheduled queue at
`start_time + duration`, and keep the rest of the state (in particular the
`time` field, which the source never updates) unchanged. -/
def applyAction (task : TemporalTask) (state : TemporalState) (actionIdx : Nat) (startTime : ℚ) : TemporalState :=
  let action := task.actions.getD actionIdx defaultAction
  { classical_state := action.effects_start.foldl applyEffect state.classical_state,
    scheduled_effects :=
      state.scheduled_effects ++
        action.effects_end.map (fun e => ⟨startTime + action.duration, e, actionIdx⟩),
    time := state.time }

/-! ## Heuristics (`heuristics.rs`) -/

/-- `TemporalFFHeuristic::compute` via `build_relaxed_planning_graph`: the
relaxed planning graph is unimplemented and the heuristic returns `0.0`. -/
def hCompute (_state : TemporalState) (_task : TemporalTask) : ℚ := 0

/-! ## Search engine (`search.rs`) -/

/-- `Plan { actions, cost }`. -/
structure Plan where
  actions : List Nat
  cost : ℚ
deriving DecidableEq

/-- `SearchResult`. -/
inductive SearchResult where
  | Solution (plan : Plan)
  | Failure
deriving DecidableEq

/-- `SearchNode`: state, g-value, h-value, owned parent link, incoming
action index. -/
inductive SearchNode where
  | mk (state : TemporalState) (g_value h_value : ℚ)
       (parent : Option SearchNode) (action_idx : Option Nat)

/-- The node's state. -/
def SearchNode.state : SearchNode → TemporalState
  | .mk s _ _ _ _ => s

/-- The node's g-value. -/
def SearchNode.g_value : SearchNode → ℚ
  | .mk _ g _ _ _ => g

/-- The node's h-value. -/
def SearchNode.h_value : SearchNode → ℚ
  | .mk _ _ h _ _ => h

/-- `SearchNode::f_value`. -/
def SearchNode.fValue (n : SearchNode) : ℚ := n.g_value + n.h_value

/-- Pop of the `BinaryHeap`: with the source's reversed `Ord` the heap pops
a node of minimal f-value.  The heap's order among equal keys is
unspecified; the model removes the first minimal-f node of the list.  (No
settled claim depends on the tie order; the claims that reach this
function pop from a singleton heap.) -/
def popMinF : List SearchNode → Option (SearchNode × List SearchNode)
  | [] => none
  | [n] => some (n, [])
  | n :: rest =>
    match popMinF rest with
    | some (m, rest') =>
      if n.fValue ≤ m.fValue then some (n, rest) else some (m, n :: rest')
    | none => some (n, rest)

/-- `TemporalAStarSearch::is_goal`: the source checks only that no scheduled
effects remain; the goal conditions are not consulted (the `task` parameter
is unused). -/
def isGoal (state : TemporalState) (_task : TemporalTask) : Bool :=
  state.scheduled_effects.isEmpty

/-- `TemporalAStarSearch::process_scheduled_effects`: advance the clock to
the earliest scheduled fire-time (or keep it), drop every effect scheduled
at or before that time without applying it (the application is an
unimplemented stub), and keep the later effects. -/
def processScheduledEffects (state : TemporalState) : TemporalState :=
  let nextTime := ((state.scheduled_effects.map (·.time)).min?).getD state.time
  { classical_state := state.classical_state,
    scheduled_effects := state.scheduled_effects.filter (fun e => decide (nextTime < e.time)),
    time := nextTime }

/-- The plan pairs collected by `extract_plan` walking the parent chain from
the terminal node (terminal first, as pushed before the final `reverse`). -/
def planPairs : SearchNode → List (Nat × ℚ)
  | .mk st _ _ parent aidx =>
    (match aidx with
     | some i => [(i, st.time)]
     | none => []) ++
    (match parent with
     | some p => planPairs p
     | none => [])

/-- `TemporalAStarSearch::extract_plan`. -/
def extractPlan (goalNode : SearchNode) : SearchResult :=
  .Solution ⟨((planPairs goalNode).reverse).map (·.1), goalNode.g_value⟩

/-- The closed list: `HashMap<State, f64>` keyed by the popped node's
`classical_state`, modelled as an association list; `contains_key` compares
keys with the `PartialEq for State` implementation. -/
def closedContains (closed : List (State × ℚ)) (key : State) : Bool :=
  closed.any (fun p => stateEq p.1 key)

/-- `HashMap::insert` on the closed list (newest binding first). -/
def closedInsert (closed : List (State × ℚ)) (key : State) (g : ℚ) : List (State × ℚ) :=
  (key, g) :: closed

/-- The successor node built in the expansion loop of
`TemporalAStarSearch::search`. -/
def successorNode (task : TemporalTask) (node : SearchNode) (processed : TemporalState)
    (cap : Nat × ℚ) : SearchNode :=
  let s' := applyAction task processed cap.1 cap.2
  .mk s' (node.g_value + (s'.time - node.state.time)) (hCompute s' task) (some node) (some cap.1)

/-- The `while let Some(node) = open_list.pop()` loop of
`TemporalAStarSearch::search`.  The fuel argument only bounds the number of
iterations (the source loop has no such bound); fuel exhaustion is reported
as `Failure` like frontier exhaustion. -/
def searchLoop (task : TemporalTask) : Nat → List SearchNode → List (State × ℚ) → SearchResult
  | 0, _, _ => .Failure
  | fuel + 1, openList, closed =>
    match popMinF openList with
    | none => .Failure
    | some (node, rest) =>
      if isGoal node.state task then extractPlan node
      else if closedContains closed node.state.classical_state then
        searchLoop task fuel rest closed
      else
        let closed' := closedInsert closed node.state.classical_state node.g_value
        let processed := processScheduledEffects node.state
        let succs := (getApplicableActions task processed).map (successorNode task node processed)
        searchLoop task fuel (rest ++ succs) closed'

/-- `TemporalAStarSearch::search`: initial temporal state with an empty
scheduled-effects queue and clock `0.0`, initial node with `g = 0`, then the
main loop. -/
def search (task : TemporalTask) (fuel : Nat) : SearchResult :=
  let initialState : TemporalState := ⟨task.initial_state, [], 0⟩
  let initialNode : SearchNode := .mk initialState 0 (hCompute initialState task) none none
  searchLoop task fuel [initialNode] []

/-! ## Spec-side definitions

The specification states several behaviours that have no implementation in
the source (the goal-condition test, the condition-satisfaction test, the
canonicalised effect queue).  They are modelled here from the spec's words,
to state divergences formally.  Each is clearly marked. -/

/-- Modelled from the spec: a condition is satisfied by a classical state
when the fact bit of its ground atom (resolved through the predicate table)
equals the condition's polarity.  The source's `check_condition` contains no
such test.  A condition whose predicate cannot be resolved is counted as
unsatisfied. -/
def specConditionSatisfied (predicates : List PDDLPredicate) (c : Condition) (s : State) : Bool :=
  match findPredicateIndex predicates c.predicate c.args with
  | some i => s.facts.getD i false == !c.is_negative
  | none => false

/-- Modelled from the spec: the goal test — every positive goal condition's
fact bit set, every negative goal condition's fact bit clear, and the
scheduled-effects queue empty.  The source's `is_goal` implements only the
last conjunct. -/
def specIsGoal (predicates : List PDDLPredicate) (task : TemporalTask) (state : TemporalState) : Bool :=
  state.scheduled_effects.isEmpty &&
  task.goal_conditions.all (fun c => specConditionSatisfied predicates c state.classical_state)

/-- Modelled from the spec: the canonicalised scheduled-effects queue,
sorted by `(fire-time, origin-action-id)`.  (The spec's third sort key, an
effect id, has no counterpart in the source's `ScheduledEffect`.)  No
canonicalisation exists in the source. -/
def canonEffects (effs : List ScheduledEffect) : List ScheduledEffect :=
  effs.insertionSort (fun a b => a.time < b.time ∨ (a.time = b.time ∧ a.action_id ≤ b.action_id))

/-- Claim-side notion for C5: a text has balanced parentheses when the
running depth never goes negative and ends at zero. -/
def balancedParensAux : List Char → Int → Bool
  | [], depth => depth == 0
  | c :: rest, depth =>
    if c == '(' then balancedParensAux rest (depth + 1)
    else if c == ')' then
      if depth ≤ 0 then false else balancedParensAux rest (depth - 1)
    else balancedParensAux rest depth

/-- Claim-side notion for C5. -/
def balancedParens (cs : List Char) : Bool := balancedParensAux cs 0

/-- Claim-side notion for C9: the text of a `:duration` clause of the shape
`(= ?duration c)` for a numeral text `c`. -/
def mkDurationClause (c : String) : List Char :=
  "(= ?duration ".toList ++ c.toList ++ [')']

/-- The duration a clause compiles to: `extract_action_duration` always
produces a `Fixed` value, and `convert_pddl_actions` maps `Some(Fixed(d))`
to `d` and everything else to `1.0`. -/
def compiledClauseDuration (clause : List Char) : ℚ :=
  match (some (parseDurationClause clause) : Option PDDLDuration) with
  | some (.Fixed d) => d
  | _ => 1

/-! ## Concrete instances used by the claim theorems -/

/-- A predicate table declaring a single nullary predicate `p`. -/
def pTable : List PDDLPredicate := [⟨"p", []⟩]

/-- A task whose single goal condition `p` is false in the initial state. -/
def goalPTask : TemporalTask := ⟨⟨[false], []⟩, [⟨"p", [], false⟩], [], []⟩

/-- The initial temporal state of `goalPTask`. -/
def goalPState : TemporalState := ⟨⟨[false], []⟩, [], 0⟩

/-- A task with one action whose `at-start` condition `p` is false in the
initial state. -/
def condPTask : TemporalTask :=
  ⟨⟨[false], []⟩, [], [⟨"a", 1, [⟨"p", [], false⟩], [], [], [], []⟩], []⟩

/-- A task with one action of duration `2` having an `at-start` add effect
on `p` and an `at-end` add effect on `q` (facts `0` and `1`). -/
def effTask : TemporalTask :=
  ⟨⟨[false, false], []⟩, [],
   [⟨"a", 2, [], [], [], [⟨"p", [], false⟩], [⟨"q", [], false⟩]⟩], []⟩

/-- The initial temporal state of `effTask`. -/
def effState : TemporalState := ⟨⟨[false, false], []⟩, [], 0⟩

/-- A classical state shared by the two C6 temporal states. -/
def sharedClassical : State := ⟨[true], []⟩

/-- C6: a temporal state with no scheduled effects. -/
def emptyQueueState : TemporalState := ⟨sharedClassical, [], 0⟩

/-- C6: a temporal state with one pending scheduled effect. -/
def pendingQueueState : TemporalState :=
  ⟨sharedClassical, [⟨1, ⟨"q", [], false⟩, 0⟩], 0⟩

/-- A predicate table declaring a single unary predicate `p`. -/
def pUnaryTable : List PDDLPredicate := [⟨"p", [⟨"?x", none⟩]⟩]

/-- C10: a state whose numeric fluent `f` has value `1/2000000`
(`0.0000005`, so `v * 10^6 = 1/2`, which rounds away from zero to `1`). -/
def halfUlpStateA : State := ⟨[], [("f", 1/2000000)]⟩

/-- C10: the same state with the fluent perturbed by `2^-53 < f64::EPSILON`
(so `v * 10^6` drops just below `1/2` and rounds to `0`). -/
def halfUlpStateB : State := ⟨[], [("f", 1/2000000 - 1/2^53)]⟩

/-- C5: a domain text with unbalanced parentheses (two closing parentheses
are missing at the end). -/
def unbalancedDomain : String := "(define (domain d) (:action a :effect (q)"

/-- C5: a well-formed problem text. -/
def simpleProblem : String := "(define (problem p) (:init (p)) (:goal (q)))"

/-- C5: the task `from_pddl` actually builds from the unbalanced domain —
with the action `a` and its effect recovered from the unbalanced text. -/
def recoveredTask : TemporalTask :=
  ⟨⟨[], []⟩, [⟨"q", [], false⟩],
   [⟨"a", 1, [], [], [], [], [⟨"q", [], false⟩]⟩], []⟩

/-- C9: the clause `(= ?durationx 5)` — not of the claim's shape
`(= ?duration c)` — which the prefix-based test nevertheless accepts. -/
def durationxClause : List Char := "(= ?durationx 5)".toList

/-! ## Claim theorems -/

/-- **C1** (the claim is right, the code diverges).  The spec's goal test
demands that positive goal conditions hold, negative ones fail, and the
scheduled-effects queue be empty; the source's `is_goal` tests only queue
emptiness.  At the concrete failing input — a task whose sole positive goal
condition `p` has a clear fact bit, in a state with an empty queue — the
code's `is_goal` accepts while the specified goal test rejects. -/
theorem claim_C1_goal_test :
    isGoal goalPState goalPTask = true ∧
    specIsGoal pTable goalPTask goalPState = false :=
  ⟨rfl, rfl⟩

/-- **C2** (confirmed).  For every task and every positive iteration budget,
`search` pops the initial node first (the only node of the frontier), whose
scheduled-effects queue is empty by construction, so the stubbed goal test
succeeds immediately and plan extraction of the parentless, actionless
initial node yields `Solution` with an empty action list and cost `0`;
`Failure` is unreachable whenever the loop runs at all. -/
theorem claim_C2_search_trivial_solution (task : TemporalTask) (fuel : Nat) :
    search task (fuel + 1) = .Solution ⟨[], 0⟩ :=
  rfl

/-- **C2 witness**: the theorem applied to a task whose goal condition is
false in the initial state and the minimal budget. -/
theorem claim_C2_search_trivial_solution_witness :
    search goalPTask 1 = .Solution ⟨[], 0⟩ :=
  claim_C2_search_trivial_solution goalPTask 0

/-- **C3** (the claim is right, the code diverges).  `check_condition` is a
stub returning `true`, so `get_applicable_actions` returns every action of
the task: at the concrete failing input, the action whose `at-start`
condition `p` is unsatisfied (second conjunct, via the spec-modelled
satisfaction test) is nevertheless returned as applicable. -/
theorem claim_C3_applicability :
    getApplicableActions condPTask ⟨⟨[false], []⟩, [], 0⟩ = [(0, 0)] ∧
    specConditionSatisfied pTable ⟨"p", [], false⟩ ⟨[false], []⟩ = false :=
  ⟨rfl, rfl⟩

/-- **C4** (the claim is right, the code diverges).  At the concrete input
(state with facts `[false, false]`, clock `0`; action `0` with an
`at-start` add of fact `p`, an `at-end` add of fact `q`, duration `2`;
start time `5`): the at-end effect is correctly enqueued at
`5 + 2 = 7`, but the classical facts are unchanged (`apply_effect` is an
unimplemented stub; the claim requires `p`'s bit set) and the clock stays
`0` (the source never writes `time`; the claim requires `5`). -/
theorem claim_C4_apply_action :
    (applyAction effTask effState 0 5).classical_state = ⟨[false, false], []⟩ ∧
    (applyAction effTask effState 0 5).time = 0 ∧
    (applyAction effTask effState 0 5).scheduled_effects =
      [⟨7, ⟨"q", [], false⟩, 0⟩] := by
  refine ⟨rfl, rfl, ?_⟩
  show [(⟨(5 : ℚ) + 2, ⟨"q", [], false⟩, 0⟩ : ScheduledEffect)] = [⟨7, ⟨"q", [], false⟩, 0⟩]
  norm_num

/-- **C6 counterexample**.  Two temporal states with `==`-equal classical
states but different (canonicalised) scheduled-effect queues: contrary to
the claim, closing the first does cause the second to be reported as
already expanded by the closed-set lookup, because the closed list is keyed
on the classical state alone. -/
theorem claim_C6_counterexample :
    stateEq emptyQueueState.classical_state pendingQueueState.classical_state = true ∧
    canonEffects emptyQueueState.scheduled_effects ≠
      canonEffects pendingQueueState.scheduled_effects ∧
    closedContains (closedInsert [] emptyQueueState.classical_state 0)
      pendingQueueState.classical_state = true := by
  refine ⟨rfl, by decide, rfl⟩

/-- **C6 amended**: the closed-set identity is the classical state alone,
compared with the `PartialEq for State` implementation; scheduled effects
and the clock are ignored, so once a state is closed, every temporal state
with a `==`-equal classical state is treated as already expanded. -/
theorem claim_C6_amended (closed : List (State × ℚ)) (s₁ s₂ : TemporalState) (g : ℚ)
    (h : stateEq s₁.classical_state s₂.classical_state = true) :
    closedContains (closedInsert closed s₁.classical_state g) s₂.classical_state = true := by
  simp [closedContains, closedInsert, List.any_cons, h]

/-- **C6 amended witness**: the amended theorem at the two concrete C6
states and an empty closed list. -/
theorem claim_C6_amended_witness :
    closedContains (closedInsert [] emptyQueueState.classical_state 0)
      pendingQueueState.classical_state = true :=
  claim_C6_amended [] emptyQueueState pendingQueueState 0 rfl

/-- **C8** (confirmed).  In condition contexts the source's collector
treats a disjunction exactly as the corresponding conjunction: the
condition lists collected from `Or fs` and from `And fs` coincide for every
list of subformulas. -/
theorem claim_C8_or_collected_as_and (fs : List PDDLFormula) :
    collectConditions (.Or fs) = collectConditions (.And fs) :=
  rfl

/-- **C7 counterexample**.  `find_predicate_index` matches only the
predicate name and the argument count: the two ground atoms `(p a)` and
`(p b)` — same predicate, different argument tuples — are both assigned bit
index `0`, and the initial state parsed from `(:init (p a) (p b))` has a
single fact bit, so the claim's distinctness fails. -/
theorem claim_C7_counterexample :
    findPredicateIndex pUnaryTable "p" ["a"] = some 0 ∧
    findPredicateIndex pUnaryTable "p" ["b"] = some 0 ∧
    (["a"] : List String) ≠ ["b"] ∧
    parseInitialState "(:init (p a) (p b))".toList pUnaryTable = ⟨[true], []⟩ := by
  exact ⟨rfl, rfl, by decide, by decide⟩

/-- Auxiliary for C7: the scan of `find_predicate_index` depends on the
argument tuple only through its length, at every starting index. -/
theorem findPredicateIndexFrom_congr (name : String) (args₁ args₂ : List String)
    (h : args₁.length = args₂.length) (preds : List PDDLPredicate) :
    ∀ idx : Nat,
      findPredicateIndexFrom idx preds name args₁ = findPredicateIndexFrom idx preds name args₂ := by
  induction preds with
  | nil => intro idx; rfl
  | cons p rest ih =>
    intro idx
    simp only [findPredicateIndexFrom, h]
    split
    · rfl
    · exact ih (idx + 1)

/-- **C7 amended**: each encountered ground fact is assigned the index of
the first declared predicate whose name matches and whose declared
parameter count equals the atom's argument count — argument values are
ignored, so two ground atoms of the same predicate with equally long
argument tuples receive the same bit index. -/
theorem claim_C7_amended (predicates : List PDDLPredicate) (name : String)
    (args₁ args₂ : List String) (h : args₁.length = args₂.length) :
    findPredicateIndex predicates name args₁ = findPredicateIndex predicates name args₂ :=
  findPredicateIndexFrom_congr name args₁ args₂ h predicates 0

/-- **C7 amended witness**: the amended theorem at the concrete table and
the argument tuples `["a"]` and `["b"]`. -/
theorem claim_C7_amended_witness :
    findPredicateIndex pUnaryTable "p" ["a"] = findPredicateIndex pUnaryTable "p" ["b"] :=
  claim_C7_amended pUnaryTable "p" ["a"] ["b"] rfl

/-- **C10 counterexample**.  The two concrete states compare equal under
the `PartialEq for State` implementation (the values differ by `2^-53`,
within machine epsilon), yet the data their `Hash` implementation feeds to
the hasher differs (`round(v * 10^6)` gives `1` versus `0`), so the two
equal values do not hash identically. -/
theorem claim_C10_counterexample :
    stateEq halfUlpStateA halfUlpStateB = true ∧
    stateHashData halfUlpStateA ≠ stateHashData halfUlpStateB := by
  constructor
  · simp only [stateEq, halfUlpStateA, halfUlpStateB, nvGet, epsF64, List.find?,
      List.all_cons, List.all_nil, List.length_cons, List.length_nil]
    norm_num
    rw [abs_of_pos (by norm_num)]
    norm_num
  · simp only [stateHashData, halfUlpStateA, halfUlpStateB, rustRound, List.map_cons,
      List.map_nil, ne_eq, Prod.mk.injEq, List.cons.injEq]
    norm_num

/-- **C10 amended**: hashing is compatible only with the stronger relation
that the fact vectors agree and the numeric entries agree keywise with
equal `round(v * 10^6)` quantisations — not with the epsilon-tolerant
`PartialEq`, which identifies states whose hash data differ. -/
theorem claim_C10_amended (s₁ s₂ : State) (hf : s₁.facts = s₂.facts)
    (hn : List.Forall₂
      (fun p q => p.1 = q.1 ∧ rustRound (p.2 * 1000000) = rustRound (q.2 * 1000000))
      s₁.numeric_values s₂.numeric_values) :
    stateHashData s₁ = stateHashData s₂ := by
  obtain ⟨f₁, n₁⟩ := s₁
  obtain ⟨f₂, n₂⟩ := s₂
  dsimp only at hf hn ⊢
  have hmap : n₁.map (fun kv => (kv.1, rustRound (kv.2 * 1000000)))
      = n₂.map (fun kv => (kv.1, rustRound (kv.2 * 1000000))) := by
    induction hn with
    | nil => rfl
    | cons hpq _ ih => simp [List.map_cons, hpq.1, hpq.2, ih]
  simp [stateHashData, hf, hmap]

/-- **C10 amended witness**: two states whose fluent values `1/3` and
`333333/1000000` differ (by far more than epsilon) but quantise equally,
hence hash identically. -/
theorem claim_C10_amended_witness :
    stateHashData ⟨[true], [("f", 1/3)]⟩ = stateHashData ⟨[true], [("f", 333333/1000000)]⟩ :=
  claim_C10_amended ⟨[true], [("f", 1/3)]⟩ ⟨[true], [("f", 333333/1000000)]⟩ rfl
    (List.Forall₂.cons ⟨rfl, by norm_num [rustRound]⟩ List.Forall₂.nil)

/-- **C5 counterexample**.  The domain text is unbalanced, yet loading does
not fail — there is no `MalformedSyntax` (nor any other error path) in
`from_pddl` — and the returned task is partially built: its action list is
nonempty. -/
theorem claim_C5_counterexample :
    balancedParens unbalancedDomain.toList = false ∧
    (fromPddl unbalancedDomain simpleProblem).actions ≠ [] := by
  exact ⟨by decide, by decide⟩

/-- **C5 amended**: loading never fails; `from_pddl` is total and on the
unbalanced domain returns the concrete partially built task (one action
with its `:effect`, plus the goal parsed from the problem). -/
theorem claim_C5_amended :
    fromPddl unbalancedDomain simpleProblem = recoveredTask := by
  decide

/-! ## C9 helper lemmas -/

/-- A list is a `isPrefixOf` of itself followed by anything. -/
theorem isPrefixOf_self_append : ∀ p r : List Char, List.isPrefixOf p (p ++ r) = true
  | [], _ => by simp [List.isPrefixOf]
  | c :: t, r => by simp [List.isPrefixOf, isPrefixOf_self_append t r]

/-- Digits and the dot are not whitespace. -/
theorem digit_dot_not_ws (ch : Char) (h : ch.isDigit = true ∨ ch = '.') :
    isWsChar ch = false := by
  rcases h with h | rfl
  · unfold isWsChar
    rcases hsp : ch == ' ' with _ | _
    · rcases htb : ch == '\t' with _ | _
      · rcases hnl : ch == '\n' with _ | _
        · rcases hcr : ch == '\r' with _ | _
          · rfl
          · rw [beq_iff_eq.mp hcr] at h; exact absurd h (by decide)
        · rw [beq_iff_eq.mp hnl] at h; exact absurd h (by decide)
      · rw [beq_iff_eq.mp htb] at h; exact absurd h (by decide)
    · rw [beq_iff_eq.mp hsp] at h; exact absurd h (by decide)
  · rfl

/-- Digits and the dot are not the closing parenthesis. -/
theorem digit_dot_ne_rparen (ch : Char) (h : ch.isDigit = true ∨ ch = '.') :
    (ch == ')') = false := by
  rcases h with h | rfl
  · rcases hp : ch == ')' with _ | _
    · rfl
    · rw [beq_iff_eq.mp hp] at h; exact absurd h (by decide)
  · rfl

/-- `splitWsAux` on a whitespace-free remainder flushes a single token. -/
theorem splitWsAux_no_ws (cs : List Char) (h : ∀ ch ∈ cs, isWsChar ch = false) :
    ∀ cur : List Char, cur ≠ [] → splitWsAux cs cur = [cur.reverse ++ cs] := by
  induction cs with
  | nil =>
    intro cur hc
    simp [splitWsAux, hc]
  | cons c t ih =>
    intro cur hc
    have hcw : isWsChar c = false := h c (List.mem_cons_self c t)
    simp only [splitWsAux, hcw, Bool.false_eq_true, if_false]
    rw [ih (fun ch hm => h ch (List.mem_cons_of_mem c hm)) (c :: cur) (by simp)]
    simp

/-- `trimWs` does not touch a text that starts with `'('` and ends with
`')'`. -/
theorem trimWs_paren_wrapped (inner : List Char) :
    trimWs (('(' :: inner) ++ [')']) = ('(' :: inner) ++ [')'] := by
  unfold trimWs trimL trimR
  have h1 : List.dropWhile isWsChar (('(' :: inner) ++ [')']) = ('(' :: inner) ++ [')'] := rfl
  rw [h1]
  rw [List.reverse_append]
  have h2 : List.dropWhile isWsChar ([')'].reverse ++ ('(' :: inner).reverse)
      = [')'].reverse ++ ('(' :: inner).reverse := by
    have : [')'].reverse ++ ('(' :: inner).reverse = ')' :: ('(' :: inner).reverse := rfl
    rw [this]
    rfl
  rw [h2]
  simp

/-- On a numeral argument, the cleaning step of `extract_action_duration`
strips exactly the outer parentheses of `(= ?duration c)`. -/
theorem cleanedClause_mkDurationClause (c : String) (hne : c.toList ≠ [])
    (hchars : ∀ ch ∈ c.toList, ch.isDigit = true ∨ ch = '.') :
    cleanedClause (mkDurationClause c) = "= ?duration ".toList ++ c.toList := by
  obtain ⟨d, t, hrev⟩ : ∃ d t, c.toList.reverse = d :: t := by
    cases hr : c.toList.reverse with
    | nil => exact absurd (List.reverse_eq_nil_iff.mp hr) hne
    | cons d t => exact ⟨d, t, rfl⟩
  have hd : d ∈ c.toList := List.mem_reverse.mp (hrev ▸ List.mem_cons_self d t)
  have hdr : (d == ')') = false := digit_dot_ne_rparen d (hchars d hd)
  have hmk : mkDurationClause c = ('(' :: ("= ?duration ".toList ++ c.toList)) ++ [')'] := rfl
  unfold cleanedClause
  rw [hmk, trimWs_paren_wrapped]
  have hdrop : List.dropWhile (fun ch => ch == '(')
      ((('(' :: ("= ?duration ".toList ++ c.toList)) ++ [')'])) =
      ("= ?duration ".toList ++ c.toList) ++ [')'] := rfl
  rw [hdrop, List.reverse_append, List.reverse_append]
  rw [hrev]
  have hlast : ([')'] : List Char).reverse ++ (d :: t ++ "= ?duration ".toList.reverse)
      = ')' :: (d :: (t ++ "= ?duration ".toList.reverse)) := by simp
  rw [hlast]
  rw [List.dropWhile_cons, List.dropWhile_cons]
  simp only [show ((')' : Char) == ')') = true from rfl, hdr, Bool.false_eq_true, if_true, if_false]
  have : (d :: (t ++ "= ?duration ".toList.reverse)).reverse
      = "= ?duration ".toList ++ (d :: t).reverse := by simp
  rw [this, ← hrev]
  simp

/-- The token split of a cleaned numeral clause. -/
theorem splitWs_duration_numeral (c : String) (hne : c.toList ≠ [])
    (hnw : ∀ ch ∈ c.toList, isWsChar ch = false) :
    splitWs ("= ?duration ".toList ++ c.toList) =
      [['='], "?duration".toList, c.toList] := by
  have h0 : splitWs ("= ?duration ".toList ++ c.toList)
      = ['='] :: "?duration".toList :: splitWsAux c.toList [] := rfl
  rw [h0]
  cases hl : c.toList with
  | nil => exact absurd hl hne
  | cons c₀ t₀ =>
    have hc₀ : isWsChar c₀ = false := hnw c₀ (by rw [hl]; exact List.mem_cons_self c₀ t₀)
    have ht₀ : ∀ ch ∈ t₀, isWsChar ch = false := fun ch hm => hnw ch (by rw [hl]; exact List.mem_cons_of_mem c₀ hm)
    simp only [splitWsAux, hc₀, Bool.false_eq_true, if_false]
    rw [splitWsAux_no_ws t₀ ht₀ [c₀] (by simp)]
    simp

/-! ## C9 theorems -/

/-- The numeral `5` parses to the rational `5`. -/
theorem parseF64_five : parseF64 ['5'] = some 5 := by
  have h : parseF64 ['5'] = some (1 * (((5 : ℕ) : ℚ) + ((0 : ℕ) : ℚ) / (10 : ℚ) ^ (0 : ℕ))) := rfl
  rw [h]
  norm_num

/-- **C9 counterexample**.  The clause `(= ?durationx 5)` is not
`(= ?duration c)` for any numeral `c` (character 12 is `'x'`, not the
space of that shape), yet the compiled duration is `5`, not the claimed
default `1.0` — the source tests only the string prefix `"= ?duration"`
of the cleaned clause and then parses the third whitespace token. -/
theorem claim_C9_counterexample :
    (∀ c : String, durationxClause ≠ mkDurationClause c) ∧
    compiledClauseDuration durationxClause = 5 ∧ (5 : ℚ) ≠ 1 := by
  refine ⟨?_, ?_, by norm_num⟩
  · intro c h
    have h12 : durationxClause.getD 12 ' ' = (mkDurationClause c).getD 12 ' ' := by rw [h]
    have hL : durationxClause.getD 12 ' ' = 'x' := rfl
    have hR : (mkDurationClause c).getD 12 ' ' = ' ' := by
      have hsplit : mkDurationClause c = "(= ?duration ".toList ++ (c.toList ++ [')']) := by
        simp [mkDurationClause, List.append_assoc]
      rw [hsplit, List.getD_append _ _ _ _ (by decide)]
      decide
    rw [hL, hR] at h12
    exact absurd h12 (by decide)
  · have hclean : cleanedClause durationxClause = "= ?durationx 5".toList := rfl
    have hpre : strStarts "= ?duration".toList "= ?durationx 5".toList = true := rfl
    have htok : splitWs "= ?durationx 5".toList = [['='], "?durationx".toList, ['5']] := rfl
    unfold compiledClauseDuration parseDurationClause
    rw [hclean]
    simp only [hpre, htok, if_true, List.length_cons, List.length_nil]
    rw [if_pos (by omega)]
    have hget : ([['='], "?durationx".toList, ['5']] : List (List Char)).getD 2 [] = ['5'] := rfl
    rw [hget, parseF64_five]

/-- **C9 amended**.  (i) For every action whose `:duration` clause is
`(= ?duration c)` with `c` an unsigned decimal numeral of value `v`, the
compiled duration is `v`; (ii) every clause whose cleaned text does not
start with the prefix `"= ?duration"` compiles to the default `1.0`
(but prefix matching is all the source checks, so clauses such as
`(= ?durationx 5)` also compile to their third token — see the
counterexample); (iii) every non-durative action (no `:duration` clause)
compiles to duration `1.0`. -/
theorem claim_C9_amended :
    (∀ (c : String) (v : ℚ), c.toList ≠ [] →
      (∀ ch ∈ c.toList, ch.isDigit = true ∨ ch = '.') →
      parseF64 c.toList = some v →
      compiledClauseDuration (mkDurationClause c) = v) ∧
    (∀ clause : List Char,
      strStarts "= ?duration".toList (cleanedClause clause) = false →
      compiledClauseDuration clause = 1) ∧
    (∀ a : PDDLAction, a.duration = none → (convertPddlAction a).duration = 1) := by
  refine ⟨?_, ?_, ?_⟩
  · intro c v hne hchars hparse
    have hnw : ∀ ch ∈ c.toList, isWsChar ch = false :=
      fun ch hm => digit_dot_not_ws ch (hchars ch hm)
    have hclean := cleanedClause_mkDurationClause c hne hchars
    have hpre : strStarts "= ?duration".toList ("= ?duration ".toList ++ c.toList) = true := by
      have he : "= ?duration ".toList ++ c.toList = "= ?duration".toList ++ (' ' :: c.toList) := rfl
      rw [he]
      exact isPrefixOf_self_append _ _
    have htok := splitWs_duration_numeral c hne hnw
    have hget : ([['='], "?duration".toList, c.toList] : List (List Char)).getD 2 [] = c.toList := rfl
    unfold compiledClauseDuration parseDurationClause
    rw [hclean]
    simp only [hpre, htok, if_true, List.length_cons, List.length_nil, hget]
    rw [hparse]
    norm_num
  · intro clause hpre
    unfold compiledClauseDuration parseDurationClause
    simp only [hpre, Bool.false_eq_true, if_false]
  · intro a h
    unfold convertPddlAction
    rw [h]
    by_cases hd : a.is_durative <;> simp [hd]

/-- **C9 amended witness**: part (i) at the numeral `"5"` with value `5`,
part (ii) at the clause `(+ 2 3)`, part (iii) at a concrete non-durative
action. -/
theorem claim_C9_amended_witness :
    compiledClauseDuration (mkDurationClause "5") = 5 ∧
    compiledClauseDuration "(+ 2 3)".toList = 1 ∧
    (convertPddlAction ⟨"a", [], none, none, none, false⟩).duration = 1 := by
  refine ⟨?_, ?_, ?_⟩
  · exact claim_C9_amended.1 "5" 5 (by decide) (by decide) parseF64_five
  · exact claim_C9_amended.2.1 "(+ 2 3)".toList (by decide)
  · exact claim_C9_amended.2.2 ⟨"a", [], none, none, none, false⟩ rfl

end TemporalPlanner
